import Mathlib

/-!
Verification of the StreamReader of plugkit/js/stream_reader.js.

The reader accumulates immutable byte slices and exposes them as one logical
byte stream with read(length, offset) and search(pattern, offset).  The
embedding below translates the JavaScript source directly:

* bytes are naturals, a Uint8Array slice is a list of bytes;
* JavaScript numbers that passed a Number.isInteger check are Int;
* indexing a typed array outside its bounds yields undefined, modelled by
  Option;
* TypedArray.prototype.slice uses relative (possibly negative) indices with
  clamping;
* TypedArray.prototype.set throws a RangeError when the source does not fit,
  and new Uint8Array(n) zero-initializes;
* accessing a property of undefined or calling set with an undefined source
  throws a TypeError;
* thrown errors are explicit result constructors.

The while-loops of the source are translated into structural recursions: the
slice-seeking loop walks the list of slices, and the candidate loop of search
runs for an explicit iteration count computed from its bound, exactly the
number of times the source loop iterates.
-/

namespace StreamReader

/-- A byte slice: the contents of one appended Uint8Array. -/
abbrev Slice := List Nat

/-- JS typed-array element access: an index outside the array yields
undefined, modelled as none. -/
def tGet (s : Slice) (i : Int) : Option Nat :=
  if 0 ≤ i then s[i.toNat]? else none

/-- Relative-index conversion of JS TypedArray.prototype.slice: a negative
index counts from the end and the result is clamped to the array bounds. -/
def relIdx (len : Nat) (i : Int) : Nat :=
  if i < 0 then ((len : Int) + i).toNat else min i.toNat len

/-- JS u8.slice(a, b): the elements from relative index a up to relative
index b. -/
def jsSlice2 (s : Slice) (a b : Int) : Slice :=
  (s.drop (relIdx s.length a)).take (relIdx s.length b - relIdx s.length a)

/-- JS u8.slice(a): the elements from relative index a to the end. -/
def jsSlice1 (s : Slice) (a : Int) : Slice :=
  s.drop (relIdx s.length a)

/-- JS data.set(src, dst) in the non-throwing case: overwrite data from
position dst with src. -/
def setAt (data : List Nat) (src : Slice) (dst : Nat) : List Nat :=
  data.take dst ++ src ++ data.drop (dst + src.length)

/-- Result of read: a thrown TypeError, a thrown RangeError, the null
sentinel, or a byte array. -/
inductive ReadRes
  | typeError
  | rangeError
  | nullRes
  | bytes (bs : List Nat)
deriving DecidableEq

/-- Result of search: a thrown TypeError, a thrown RangeError (propagated
from read), or a returned number. -/
inductive SearchRes
  | typeError
  | rangeError
  | ret (n : Int)
deriving DecidableEq

/-- The begin-seeking loop shared by read and search:
for (; begin < slices.length && (beginOffset += slices[begin].length) <= offset; ++begin);
Arguments: remaining slices, accumulated beginOffset, offset, current begin
index.  Returns the final beginOffset, the final begin index, and the suffix
slices[begin..] (empty when the loop ran past the last slice). -/
def seek : List Slice → Int → Int → Nat → Int × Nat × List Slice
  | [], acc, _, i => (acc, i, [])
  | s :: rest, acc, offset, i =>
    if acc + (s.length : Int) ≤ offset then seek rest (acc + (s.length : Int)) offset (i + 1)
    else (acc + (s.length : Int), i, s :: rest)

/-- The end-seeking loop of read:
for (; end < slices.length && (endOffset += slices[end].length) < offset + length; ++end);
Arguments: slices[begin..], accumulated endOffset, the target offset+length.
Returns the final endOffset, the slices begin..end inclusive, and whether the
loop ran past the last slice (end === slices.length). -/
def span : List Slice → Int → Int → Int × List Slice × Bool
  | [], acc, _ => (acc, [], true)
  | s :: rest, acc, target =>
    if acc + (s.length : Int) < target then
      ((span rest (acc + (s.length : Int)) target).1,
       s :: (span rest (acc + (s.length : Int)) target).2.1,
       (span rest (acc + (s.length : Int)) target).2.2)
    else (acc + (s.length : Int), [s], false)

/-- The materializing copy loop of read over the spanned slices (the first
already replaced by its sub-slice): data.set(slice, dst) throws a RangeError,
modelled as none, when the source does not fit into data. -/
def copyLoop : List Slice → List Nat → Nat → Option (List Nat)
  | [], data, _ => some data
  | s :: rest, data, dst =>
    if data.length < dst + s.length then none
    else copyLoop rest (setAt data s dst) (dst + s.length)

/-- The body of read after the begin-seeking loop.  bo is beginOffset as left
by the loop and the last argument is the suffix slices[begin..].  When the
suffix is empty and the null check does not fire (possible only for a
negative offset on an empty reader), slices[begin] is undefined and reading
its length throws a TypeError.  When the end loop ran past the last slice,
the copy loop reaches slices[end] = undefined and data.set throws a
TypeError, unless an earlier set already threw a RangeError. -/
def readRest (len offset bo : Int) : List Slice → ReadRes
  | [] => if bo ≤ offset then .nullRes else .typeError
  | sb :: rest =>
    if bo ≤ offset then .nullRes
    else
      let beginOffset := bo - (sb.length : Int)
      let r := span (sb :: rest) beginOffset (offset + len)
      let buflen := min len (r.1 - beginOffset)
      let sliceOffset := offset - beginOffset
      if (sb.length : Int) ≥ sliceOffset + buflen then
        .bytes (jsSlice2 sb sliceOffset (sliceOffset + buflen))
      else if buflen < 0 then .rangeError
      else
        match copyLoop (jsSlice1 sb sliceOffset :: r.2.1.tail) (List.replicate buflen.toNat 0) 0 with
        | none => .rangeError
        | some data => if r.2.2 then .typeError else .bytes data

/-- StreamReader.read(length, offset) on arguments that passed the integer
checks. -/
def read (slices : List Slice) (len offset : Int) : ReadRes :=
  readRest len offset (seek slices 0 offset 0).1 (seek slices 0 offset 0).2.2

/-- The candidate loop of search inside one slice.  i is the absolute index
of the current slice (the outer loop variable, which the source also uses
inside the byte-comparison loop).  The last argument is the remaining number
of iterations of the source loop
for (; index < slice.length - pattern.length + 1; ++index).
The comparison loop of the source,
for (j = 0; j < window.length; ++j) if (window[i] !== slice[i]) ...,
has a body independent of j, so it leaves equal = true exactly when the
window is empty or window[i] and slice[i] agree (undefined agreeing with
undefined). -/
def searchInner (slices : List Slice) (pattern : List Nat) (front : Int) (i : Nat)
    (s : Slice) : Int → Nat → Option SearchRes
  | _, 0 => none
  | index, fuel + 1 =>
    if tGet s index = tGet pattern 0 then
      match read slices (pattern.length : Int) (front + index) with
      | .typeError => some .typeError
      | .rangeError => some .rangeError
      | .nullRes => some .typeError
      | .bytes w =>
        if w.length = pattern.length then
          if w.length = 0 ∨ tGet w (i : Int) = tGet s (i : Int) then
            some (.ret (front + index + (pattern.length : Int)))
          else searchInner slices pattern front i s (index + 1) fuel
        else searchInner slices pattern front i s (index + 1) fuel
    else searchInner slices pattern front i s (index + 1) fuel

/-- The outer slice loop of search: for (let i = begin; i < slices.length; ++i).
front is set once to beginOffset and never advanced (as in the source), and
the start index offset - beginOffset applies only to the first slice. -/
def searchOuter (slices : List Slice) (pattern : List Nat) (front : Int) :
    Nat → List Slice → Int → SearchRes
  | _, [], _ => .ret (-1)
  | i, s :: rest, startIdx =>
    match searchInner slices pattern front i s startIdx
        (((s.length : Int) - (pattern.length : Int) + 1 - startIdx).toNat) with
    | some r => r
    | none => searchOuter slices pattern front (i + 1) rest 0

/-- StreamReader.search(pattern, offset) on arguments that passed the type
checks. -/
def search (slices : List Slice) (pattern : List Nat) (offset : Int) : SearchRes :=
  if pattern.length = 0 then .ret 0
  else
    match (seek slices 0 offset 0).2.2 with
    | [] => if (seek slices 0 offset 0).1 ≤ offset then .ret (-1) else .typeError
    | sb :: rest =>
      if (seek slices 0 offset 0).1 ≤ offset then .ret (-1)
      else
        searchOuter slices pattern ((seek slices 0 offset 0).1 - (sb.length : Int))
          (seek slices 0 offset 0).2.1 (sb :: rest)
          (offset - ((seek slices 0 offset 0).1 - (sb.length : Int)))

/-- A JS argument in a number position: an integer (Number.isInteger true) or
anything else (Number.isInteger false). -/
inductive JsNum
  | int (n : Int)
  | nonInt
deriving DecidableEq

/-- Number.isInteger. -/
def JsNum.isInt : JsNum → Bool
  | .int _ => true
  | .nonInt => false

/-- A JS argument in a slice position: a Uint8Array or anything else. -/
inductive SliceArg
  | u8 (s : Slice)
  | notU8
deriving DecidableEq

/-- A JS argument in a payload position: a Payload object exposing an ordered
sequence of slice arguments, or anything else. -/
inductive PayloadArg
  | payloadOf (slices : List SliceArg)
  | notPayload
deriving DecidableEq

/-- read with the Number.isInteger argument checks of the source. -/
def readJs (slices : List Slice) (len offset : JsNum) : ReadRes :=
  match len, offset with
  | .int l, .int o => read slices l o
  | _, _ => .typeError

/-- search with the instanceof Uint8Array and Number.isInteger argument
checks of the source. -/
def searchJs (slices : List Slice) (pattern : SliceArg) (offset : JsNum) : SearchRes :=
  match pattern, offset with
  | .u8 p, .int o => search slices p o
  | _, _ => .typeError

/-- The _fields state of a StreamReader instance. -/
structure RState where
  length : Int
  slices : List Slice
deriving DecidableEq

/-- The state built by the constructor. -/
def initState : RState := ⟨0, []⟩

/-- addSlice(slice): the state after the call and whether a TypeError was
thrown.  A non-Uint8Array argument throws before any mutation. -/
def addSlice (st : RState) : SliceArg → RState × Bool
  | .notU8 => (st, true)
  | .u8 s => (⟨st.length + (s.length : Int), st.slices ++ [s]⟩, false)

/-- The for-of loop of addPayload: addSlice each contained slice in order,
stopping at the first thrown error. -/
def addSliceLoop : RState → List SliceArg → RState × Bool
  | st, [] => (st, false)
  | st, a :: rest =>
    if (addSlice st a).2 then addSlice st a else addSliceLoop (addSlice st a).1 rest

/-- addPayload(payload): a non-Payload argument throws before any mutation;
otherwise the contained slices are added in order via addSlice. -/
def addPayload (st : RState) : PayloadArg → RState × Bool
  | .notPayload => (st, true)
  | .payloadOf args => addSliceLoop st args

/-- The sequence of calls addSlice(s1); ...; addSlice(sn) on plain byte
slices, stopping at a thrown error (none occurs, all arguments being valid). -/
def addSliceSeq : RState → List Slice → RState × Bool
  | st, [] => (st, false)
  | st, s :: rest =>
    if (addSlice st (.u8 s)).2 then addSlice st (.u8 s)
    else addSliceSeq (addSlice st (.u8 s)).1 rest

/-- One externally invoked mutating operation. -/
inductive Op
  | slice (a : SliceArg)
  | payload (p : PayloadArg)

/-- The state after one operation, whether or not it threw (a caller may
catch the error and continue using the reader). -/
def step (st : RState) : Op → RState
  | .slice a => (addSlice st a).1
  | .payload p => (addPayload st p).1

/-- The state after a sequence of operations. -/
def runOps : RState → List Op → RState
  | st, [] => st
  | st, op :: rest => runOps (step st op) rest

/-- The sum of the lengths of a list of slices. -/
def sumLens : List Slice → Int
  | [] => 0
  | s :: rest => (s.length : Int) + sumLens rest

lemma sumLens_nonneg (ss : List Slice) : 0 ≤ sumLens ss := by
  induction ss with
  | nil => simp [sumLens]
  | cons s rest ih => simp only [sumLens]; omega

lemma sumLens_append (a b : List Slice) : sumLens (a ++ b) = sumLens a + sumLens b := by
  induction a with
  | nil => simp [sumLens]
  | cons s rest ih =>
    show (s.length : Int) + sumLens (rest ++ b) = (s.length : Int) + sumLens rest + sumLens b
    rw [ih]; omega

/-- When the whole stream lies at or before the offset, the begin-seeking
loop runs past the last slice. -/
lemma seek_total (ss : List Slice) (acc o : Int) (i : Nat)
    (h : acc + sumLens ss ≤ o) :
    seek ss acc o i = (acc + sumLens ss, i + ss.length, []) := by
  induction ss generalizing acc i with
  | nil => simp [seek, sumLens]
  | cons s rest ih =>
    have hn := sumLens_nonneg rest
    simp only [sumLens] at h
    have hc : acc + (s.length : Int) ≤ o := by omega
    rw [seek, if_pos hc, ih _ _ (by omega)]
    simp only [sumLens, List.length_cons, Prod.mk.injEq, and_true]
    exact ⟨by omega, by omega⟩

lemma addSlice_inv (st : RState) (a : SliceArg) (h : st.length = sumLens st.slices) :
    (addSlice st a).1.length = sumLens (addSlice st a).1.slices := by
  cases a with
  | notU8 => simpa [addSlice] using h
  | u8 s => simp only [addSlice, sumLens_append, sumLens, h]; omega

lemma addSliceLoop_inv (args : List SliceArg) :
    ∀ st : RState, st.length = sumLens st.slices →
      (addSliceLoop st args).1.length = sumLens (addSliceLoop st args).1.slices := by
  induction args with
  | nil => intro st h; simpa [addSliceLoop] using h
  | cons a rest ih =>
    intro st h
    simp only [addSliceLoop]
    by_cases hb : (addSlice st a).2
    · simpa [hb] using addSlice_inv st a h
    · simpa [hb] using ih _ (addSlice_inv st a h)

lemma step_inv (st : RState) (op : Op) (h : st.length = sumLens st.slices) :
    (step st op).length = sumLens (step st op).slices := by
  cases op with
  | slice a => exact addSlice_inv st a h
  | payload p =>
    cases p with
    | notPayload => simpa [step, addPayload] using h
    | payloadOf args => exact addSliceLoop_inv args st h

lemma runOps_inv (ops : List Op) :
    ∀ st : RState, st.length = sumLens st.slices →
      (runOps st ops).length = sumLens (runOps st ops).slices := by
  induction ops with
  | nil => intro st h; simpa [runOps] using h
  | cons op rest ih => intro st h; exact ih _ (step_inv st op h)

/-- Claim C5: after every sequence of append operations (including failed
ones, whose partial effects the source keeps), the stored length field
equals the sum of the lengths of the stored slices. -/
theorem length_eq_sum_of_slices (ops : List Op) :
    (runOps initState ops).length = sumLens (runOps initState ops).slices :=
  runOps_inv ops initState (by simp [initState, sumLens])

/-- Claim C6: read at an offset at or past the total length returns the null
sentinel, never bytes and never a thrown error; on an empty stream every
read at a non-negative offset is not available. -/
theorem read_past_end_not_available (ss : List Slice) (l o : Int)
    (h1 : 0 ≤ l) (h2 : sumLens ss ≤ o) : read ss l o = ReadRes.nullRes := by
  unfold read
  rw [seek_total ss 0 o 0 (by omega)]
  show readRest l o (0 + sumLens ss) [] = ReadRes.nullRes
  simp only [readRest]
  rw [if_pos (by omega)]

/-- Witness for claim C6 at a concrete input. -/
theorem read_past_end_not_available_witness :
    read [[0x41]] 1 5 = ReadRes.nullRes :=
  read_past_end_not_available [[0x41]] 1 5 (by decide) (by decide)

lemma addSliceLoop_map_u8 (ss : List Slice) :
    ∀ st : RState, addSliceLoop st (ss.map SliceArg.u8) = addSliceSeq st ss := by
  induction ss with
  | nil => intro st; simp [addSliceLoop, addSliceSeq]
  | cons s rest ih =>
    intro st
    simp only [List.map_cons, addSliceLoop, addSliceSeq, addSlice]
    exact ih _

lemma addSliceSeq_effect (ss : List Slice) :
    ∀ st : RState, addSliceSeq st ss = (⟨st.length + sumLens ss, st.slices ++ ss⟩, false) := by
  induction ss with
  | nil => intro st; simp [addSliceSeq, sumLens]
  | cons s rest ih =>
    intro st
    simp only [addSliceSeq, addSlice]
    rw [if_neg (by simp), ih]
    simp only [sumLens, Prod.mk.injEq, RState.mk.injEq, List.append_assoc,
      List.singleton_append, and_true]
    omega

/-- Claim C7: addPayload on a payload whose contained slices are all valid
byte slices is exactly the sequence of addSlice calls on those slices in
order, and both succeed, append the slices in order, and add the sum of
their lengths to the total. -/
theorem addPayload_equals_sequential_addSlice :
    ∀ (st : RState) (ss : List Slice),
      addPayload st (.payloadOf (ss.map SliceArg.u8)) = addSliceSeq st ss ∧
      addSliceSeq st ss = (⟨st.length + sumLens ss, st.slices ++ ss⟩, false) :=
  fun st ss => ⟨by simp only [addPayload, addSliceLoop_map_u8], addSliceSeq_effect ss st⟩

lemma addSliceLoop_prefix (pre : List Slice) (post : List SliceArg) :
    ∀ st : RState,
      addSliceLoop st (pre.map SliceArg.u8 ++ SliceArg.notU8 :: post) =
        (⟨st.length + sumLens pre, st.slices ++ pre⟩, true) := by
  induction pre with
  | nil => intro st; simp [addSliceLoop, addSlice, sumLens]
  | cons s rest ih =>
    intro st
    have hc : (s :: rest).map SliceArg.u8 ++ SliceArg.notU8 :: post =
        SliceArg.u8 s :: (rest.map SliceArg.u8 ++ SliceArg.notU8 :: post) := rfl
    rw [hc]
    simp only [addSliceLoop, addSlice]
    rw [if_neg (by simp), ih]
    simp only [sumLens, Prod.mk.injEq, RState.mk.injEq, List.append_assoc,
      List.singleton_append, and_true]
    omega

/-- Amended claim C8: a failed addSlice and a failed addPayload on a
non-Payload argument leave the state unchanged, but addPayload on a payload
containing a malformed slice is not atomic: it appends exactly the valid
slices preceding the first malformed one and then throws. -/
theorem append_error_state_semantics :
    (∀ st : RState, addSlice st .notU8 = (st, true)) ∧
    (∀ st : RState, addPayload st .notPayload = (st, true)) ∧
    (∀ (st : RState) (pre : List Slice) (post : List SliceArg),
      addPayload st (.payloadOf (pre.map SliceArg.u8 ++ .notU8 :: post)) =
        (⟨st.length + sumLens pre, st.slices ++ pre⟩, true)) :=
  ⟨fun _ => rfl, fun _ => rfl, fun st pre post => addSliceLoop_prefix pre post st⟩

/-- Amended claim C9: read and search throw a TypeError whenever an argument
fails the type checks of the source (a non-integer length or offset, or a
non-Uint8Array pattern); negative integers pass the checks and are processed
rather than rejected. -/
theorem arg_type_check_semantics :
    (∀ (ss : List Slice) (lv ov : JsNum), lv.isInt = false ∨ ov.isInt = false →
      readJs ss lv ov = ReadRes.typeError) ∧
    (∀ (ss : List Slice) (pv : SliceArg) (ov : JsNum),
      pv = SliceArg.notU8 ∨ ov.isInt = false →
      searchJs ss pv ov = SearchRes.typeError) := by
  constructor
  · intro ss lv ov h
    cases lv <;> cases ov <;> simp [JsNum.isInt] at h <;> rfl
  · intro ss pv ov h
    cases pv <;> cases ov <;> simp [JsNum.isInt] at h <;> rfl

/-- Witness for amended claim C9 at concrete inputs. -/
theorem arg_type_check_semantics_witness :
    readJs [] .nonInt (.int 0) = ReadRes.typeError ∧
      searchJs [] .notU8 (.int 0) = SearchRes.typeError :=
  ⟨arg_type_check_semantics.1 [] .nonInt (.int 0) (Or.inl rfl),
   arg_type_check_semantics.2 [] .notU8 (.int 0) (Or.inl rfl)⟩

/-- The begin-seeking loop's offset and suffix do not depend on the index
argument. -/
lemma seek_idx (ss : List Slice) : ∀ (acc o : Int) (i j : Nat),
    (seek ss acc o i).1 = (seek ss acc o j).1 ∧
    (seek ss acc o i).2.2 = (seek ss acc o j).2.2 := by
  induction ss with
  | nil => intro acc o i j; exact ⟨rfl, rfl⟩
  | cons s rest ih =>
    intro acc o i j
    simp only [seek]
    by_cases hc : acc + (s.length : Int) ≤ o
    · simp only [if_pos hc]; exact ih _ o (i + 1) (j + 1)
    · simp only [if_neg hc]; exact ⟨trivial, trivial⟩

/-- Inserting an empty slice into the stream does not change the offset
computed by the begin-seeking loop, and either leaves the suffix of slices
from the begin slice unchanged or inserts the empty slice into that suffix
strictly behind the begin slice (the loop can never stop at an empty slice
when the offset is at least the accumulated offset). -/
lemma seek_ins (pre : List Slice) : ∀ (post : List Slice) (acc o : Int) (i j : Nat),
    acc ≤ o →
    (seek (pre ++ [] :: post) acc o i).1 = (seek (pre ++ post) acc o j).1 ∧
    ((seek (pre ++ [] :: post) acc o i).2.2 = (seek (pre ++ post) acc o j).2.2 ∨
      ∃ s t, (seek (pre ++ post) acc o j).2.2 = s :: (t ++ post) ∧
        (seek (pre ++ [] :: post) acc o i).2.2 = s :: (t ++ [] :: post)) := by
  induction pre with
  | nil =>
    intro post acc o i j h
    have h1 : seek (([] : Slice) :: post) acc o i = seek post acc o (i + 1) := by
      simp only [seek, List.length_nil, Nat.cast_zero, add_zero, if_pos h]
    simp only [List.nil_append]
    rw [h1]
    exact ⟨(seek_idx post acc o (i + 1) j).1, Or.inl (seek_idx post acc o (i + 1) j).2⟩
  | cons s pre2 ih =>
    intro post acc o i j h
    simp only [List.cons_append, seek]
    by_cases hc : acc + (s.length : Int) ≤ o
    · simp only [if_pos hc]; exact ih post (acc + (s.length : Int)) o (i + 1) (j + 1) hc
    · simp only [if_neg hc]
      exact ⟨trivial, Or.inr ⟨s, pre2, rfl, rfl⟩⟩

/-- Inserting an empty slice strictly behind the begin slice does not change
the end-seeking loop's offset or its past-the-end flag, and either leaves the
spanned slices unchanged or inserts the empty slice into them strictly behind
the begin slice. -/
lemma span_ins (a : List Slice) : ∀ (s : Slice) (b : List Slice) (acc t : Int),
    (span (s :: (a ++ [] :: b)) acc t).1 = (span (s :: (a ++ b)) acc t).1 ∧
    (span (s :: (a ++ [] :: b)) acc t).2.2 = (span (s :: (a ++ b)) acc t).2.2 ∧
    ((span (s :: (a ++ [] :: b)) acc t).2.1 = (span (s :: (a ++ b)) acc t).2.1 ∨
      ∃ x y, (span (s :: (a ++ b)) acc t).2.1 = s :: (x ++ y) ∧
        (span (s :: (a ++ [] :: b)) acc t).2.1 = s :: (x ++ [] :: y)) := by
  induction a with
  | nil =>
    intro s b acc t
    simp only [List.nil_append]
    by_cases hc : acc + (s.length : Int) < t
    · simp only [span, List.length_nil, Nat.cast_zero, add_zero, if_pos hc]
      exact ⟨trivial, trivial,
        Or.inr ⟨[], (span b (acc + (s.length : Int)) t).2.1, rfl, rfl⟩⟩
    · simp only [span, if_neg hc]
      exact ⟨trivial, trivial, Or.inl trivial⟩
  | cons a0 a2 ih =>
    intro s b acc t
    by_cases hc : acc + (s.length : Int) < t
    · simp only [List.cons_append, span, if_pos hc]
      obtain ⟨h1, h2, h3⟩ := ih a0 b (acc + (s.length : Int)) t
      refine ⟨h1, h2, ?_⟩
      rcases h3 with h3 | ⟨x, y, hx, hy⟩
      · exact Or.inl (congrArg (fun l => s :: l) h3)
      · exact Or.inr ⟨a0 :: x, y,
          congrArg (fun l => s :: l) hx, congrArg (fun l => s :: l) hy⟩
    · simp only [List.cons_append, span, if_neg hc]
      exact ⟨trivial, trivial, Or.inl trivial⟩

lemma setAt_length (data : List Nat) (src : Slice) (dst : Nat)
    (h : dst + src.length ≤ data.length) : (setAt data src dst).length = data.length := by
  simp only [setAt, List.length_append, List.length_take, List.length_drop]
  omega

/-- An empty slice inside the copy loop writes nothing and cannot throw, so
removing it does not change the result (including which set call throws). -/
lemma copy_ins (x : List Slice) : ∀ (y : List Slice) (data : List Nat) (dst : Nat),
    dst ≤ data.length →
    copyLoop (x ++ [] :: y) data dst = copyLoop (x ++ y) data dst := by
  induction x with
  | nil =>
    intro y data dst h
    simp only [List.nil_append, copyLoop, List.length_nil, Nat.add_zero, setAt,
      List.append_nil, List.take_append_drop, if_neg (by omega : ¬ data.length < dst)]
  | cons s x2 ih =>
    intro y data dst h
    simp only [List.cons_append, copyLoop]
    by_cases hc : data.length < dst + s.length
    · simp only [if_pos hc]
    · simp only [if_neg hc]
      exact ih y (setAt data s dst) (dst + s.length)
        (by rw [setAt_length data s dst (by omega)]; omega)

/-- Inserting an empty slice strictly behind the begin slice does not change
the result of the body of read. -/
lemma readRest_ins (l o bo : Int) (s : Slice) (t post : List Slice) :
    readRest l o bo (s :: (t ++ [] :: post)) = readRest l o bo (s :: (t ++ post)) := by
  by_cases hn : bo ≤ o
  · simp only [readRest, if_pos hn]
  · simp only [readRest, if_neg hn]
    obtain ⟨h1, h2, h3⟩ := span_ins t s post (bo - (s.length : Int)) (o + l)
    rw [h1, h2]
    rcases h3 with h3 | ⟨x, y, hx, hy⟩
    · rw [h3]
    · rw [hx, hy]
      simp only [List.tail_cons]
      have hcp := copy_ins (jsSlice1 s (o - (bo - (s.length : Int))) :: x) y
        (List.replicate (min l ((span (s :: (t ++ post)) (bo - (s.length : Int)) (o + l)).1 -
          (bo - (s.length : Int)))).toNat 0) 0 (Nat.zero_le _)
      simp only [List.cons_append] at hcp
      rw [hcp]

/-- Claim C10: appending a zero-length slice always succeeds and leaves the
total length unchanged, and an empty slice inserted anywhere in the slice
sequence is invisible to read on every in-range request. -/
theorem empty_slice_invisible :
    (∀ st : RState, addSlice st (.u8 []) = (⟨st.length, st.slices ++ [[]]⟩, false)) ∧
    (∀ (pre post : List Slice) (l o : Int), 0 ≤ l → 0 ≤ o →
      o + l ≤ sumLens (pre ++ post) →
      read (pre ++ [] :: post) l o = read (pre ++ post) l o) := by
  constructor
  · intro st; simp [addSlice]
  · intro pre post l o hl ho hb
    unfold read
    obtain ⟨h1, h2⟩ := seek_ins pre post 0 o 0 0 ho
    rw [h1]
    rcases h2 with h2 | ⟨s, t, hx, hy⟩
    · rw [h2]
    · rw [hx, hy]
      exact readRest_ins l o _ s t post

/-- Witness for claim C10 at a concrete input: an empty slice between two
one-byte slices does not change an in-range read. -/
theorem empty_slice_invisible_witness :
    read [[0x41], [], [0x42]] 1 1 = read [[0x41], [0x42]] 1 1 :=
  empty_slice_invisible.2 [[0x41]] [[0x42]] 1 1 (by decide) (by decide) (by decide)

/-- Claim C1: read(length, offset) is claimed to return exactly the bytes of
the logical range however it is split across slices.  It does not: on the
stream of the two slices 0x41 0x42 and 0x43 0x44, read(2, 1) should return
the bytes 0x42 0x43, but the copy loop of the source writes the whole end
slice into the 2-byte buffer with data.set, which throws a RangeError. -/
theorem read_cross_boundary_range_error :
    read [[0x41, 0x42], [0x43, 0x44]] 2 1 = ReadRes.rangeError := by decide

/-- Claim C2: search is claimed to return the smallest matching position plus
the pattern length.  On the single-slice stream 0x41 0x41 0x42 with pattern
0x41 0x42 the smallest match starts at position 1, so the claimed result is
3; the source returns 2, accepting the false candidate at position 0 because
its confirmation loop compares window[i] with slice[i] using the outer slice
index i instead of comparing window[j] with pattern[j]. -/
theorem search_confirms_wrong_bytes :
    search [[0x41, 0x41, 0x42]] [0x41, 0x42] 0 = SearchRes.ret 2 ∧
      search [[0x41, 0x41, 0x42]] [0x41, 0x42] 0 ≠ SearchRes.ret 3 := by decide

/-- Claim C3: a match straddling a slice boundary is claimed to be found.
On the stream of slices 0x61 0x62 and 0x63 0x64 with pattern 0x62 0x63 the
claimed result is 4, but the source returns the NotFound sentinel -1: its
candidate loop bound index < slice.length - pattern.length + 1 never
considers start positions whose match would cross the end of the slice. -/
theorem search_misses_boundary_straddle :
    search [[0x61, 0x62], [0x63, 0x64]] [0x62, 0x63] 0 = SearchRes.ret (-1) ∧
      search [[0x61, 0x62], [0x63, 0x64]] [0x62, 0x63] 0 ≠ SearchRes.ret 4 := by decide

/-- Claim C4: search with an empty pattern is claimed to return the search
offset itself.  The source returns the fixed literal 0 regardless of the
offset: at offset 5 it returns 0, not 5. -/
theorem search_empty_pattern_fixed_zero :
    search [[0x41]] [] 5 = SearchRes.ret 0 ∧
      search [[0x41]] [] 5 ≠ SearchRes.ret 5 := by decide

/-- Counterexample to claim C8: addPayload is not atomic.  On a fresh reader,
a payload whose slices are the valid slice 0x41 followed by a malformed entry
throws, yet leaves the first slice appended and the total length at 1, so the
state after the failed call differs from the state before it. -/
theorem addPayload_partial_append_counterexample :
    addPayload initState (.payloadOf [.u8 [0x41], .notU8]) = (⟨1, [[0x41]]⟩, true) ∧
      (⟨1, [[0x41]]⟩ : RState) ≠ initState := by decide

/-- Counterexample to claim C9: a negative integer offset is claimed to be
rejected with an error, but the source only checks Number.isInteger, so
read(1, -1) on the stream of the single slice 0x41 0x42 is processed and
returns an empty byte array rather than raising an error. -/
theorem negative_offset_read_no_error :
    readJs [[0x41, 0x42]] (.int 1) (.int (-1)) = ReadRes.bytes [] := by decide

end StreamReader
